import Mathlib

/-!
Verification development for the CardWatch ingestion pipeline.

The repository's backend services (scheduler, scraper jobs / reconciliation,
sport classifier, market-value cache resolver) are documented in the repo but
their Python sources are not part of the source tree provided here; those
components are modelled from the specification (`spec.md`, sections 4.1-4.5),
with each such definition carrying a `Modelled from the spec:` doc comment.
The frontend TypeScript components (`MarketValueBadge.tsx`, `AuctionCard.tsx`,
`app/page.tsx`) are present and are embedded directly from their sources.

Conventions: timestamps are integers (milliseconds since epoch), monetary
amounts are integers, and JavaScript `undefined`/Python `None` is `Option`.
-/

namespace CardWatch

/-- Lifecycle state of an Auction Item (spec section 3: `live` | `ended`). -/
inductive Status
  | live
  | ended
deriving DecidableEq

/-- One normalized batch entry as produced by a Source Adapter
(spec section 4.2). -/
structure NormalizedItem where
  externalId : String
  title : String
  description : String
  category : String
  currentBid : Int
  bidCount : Nat
  endTime : Option Int
deriving DecidableEq

/-- A (label, confidence) classification result (spec section 3). -/
structure Classification where
  label : String
  confidence : Nat
deriving DecidableEq

/-- Versioned rule set consumed by the classifier (spec section 4.4):
non-domain keywords, named entities with their labels, and structural
pattern phrases with their labels. -/
structure RuleSet where
  version : Nat
  nonSportKeywords : List String
  namedEntities : List (String × String)
  patternRules : List (String × String)
deriving DecidableEq

/-- Boolean test that `needle` occurs at the start of `l`. -/
def charListPrefixOf : List Char → List Char → Bool
  | [], _ => true
  | _ :: _, [] => false
  | a :: as, b :: bs => a == b && charListPrefixOf as bs

/-- Boolean substring occurrence test on character lists. -/
def strContainsAux (needle : List Char) : List Char → Bool
  | [] => charListPrefixOf needle []
  | a :: rest => charListPrefixOf needle (a :: rest) || strContainsAux needle rest

/-- Boolean substring test on strings (the `in` / `.includes` check used by
keyword matching). -/
def strContains (hay needle : String) : Bool :=
  strContainsAux needle.data hay.data

/-- Modelled from the spec: the layered classifier of section 4.4 (source file
`backend/app/utils/sport_detection.py` is not in the provided tree).  Layer
(a): explicit non-domain-content detection short-circuits to "OTHER";
layer (b): direct named-entity matches yield high confidence; layer (c):
structural pattern matches yield medium confidence; layer (d): absence of any
signal yields "OTHER" at zero confidence.  A pure function of the rule set
and the input text. -/
def classify (rules : RuleSet) (text : String) : Classification :=
  if rules.nonSportKeywords.any (fun k => strContains text k) then
    ⟨"OTHER", 100⟩
  else
    match rules.namedEntities.find? (fun p => strContains text p.1) with
    | some p => ⟨p.2, 90⟩
    | none =>
      match rules.patternRules.find? (fun p => strContains text p.1) with
      | some p => ⟨p.2, 60⟩
      | none => ⟨"OTHER", 0⟩

/-- Cached value-estimate fields stored inline on an Auction Item
(spec section 3, "Cached Estimate"). -/
structure Estimate where
  low : Int
  high : Int
  avg : Int
  confidence : String
  notes : String
  computedAt : Int
deriving DecidableEq

/-- The durable, canonical record for one listing (spec section 3,
"Auction Item"). -/
structure StoredItem where
  sourceId : String
  externalId : String
  title : String
  description : String
  category : String
  currentBid : Int
  bidCount : Nat
  endTime : Option Int
  status : Status
  classification : Classification
  needsReverify : Bool
  createdAt : Int
  updatedAt : Int
  lastSnapshotAt : Int
  marketValue : Option Estimate
deriving DecidableEq

/-- An immutable price-history fact (spec section 3, "Price Snapshot"). -/
structure Snapshot where
  sourceId : String
  externalId : String
  takenAt : Int
  currentBid : Int
  bidCount : Nat
  status : Status
deriving DecidableEq

/-- The durable store: Auction Items plus the append-only snapshot log. -/
structure Store where
  items : List StoredItem
  snapshots : List Snapshot
deriving DecidableEq

/-- Per-pass counters recorded in a Run Record (spec section 3). -/
structure Counts where
  fetched : Nat
  created : Nat
  updated : Nat
  endedCnt : Nat
deriving DecidableEq

/-- The (source id, external id) composite-key test, the only identity used
by reconciliation (spec section 3, final invariant). -/
def itemKeyMatches (src eid : String) (it : StoredItem) : Bool :=
  it.sourceId == src && it.externalId == eid

/-- Key-based lookup of an Auction Item (spec section 4.3, step 1). -/
def findItem (src eid : String) (items : List StoredItem) : Option StoredItem :=
  items.find? (itemKeyMatches src eid)

/-- Has the compared triple (current bid, bid count, end time) changed
(spec section 4.3, step 3)? -/
def fieldsChanged (it : StoredItem) (n : NormalizedItem) : Bool :=
  it.currentBid != n.currentBid || it.bidCount != n.bidCount || it.endTime != n.endTime

/-- Has the classification-relevant text changed (spec section 4.3, step 3)? -/
def textChanged (it : StoredItem) (n : NormalizedItem) : Bool :=
  it.title != n.title || it.description != n.description || it.category != n.category

/-- Text fed to the classifier: title, description and category. -/
def itemText (title description category : String) : String :=
  title ++ " " ++ description ++ " " ++ category

/-- One day in milliseconds, the at-minimum-once-per-day snapshot floor
(spec section 3, "Price Snapshot"). -/
def dayMs : Int := 86400000

/-- One deduplication step: drop any earlier record with this external id and
keep the current record at the end. -/
def dedupStep (acc : List NormalizedItem) (it : NormalizedItem) : List NormalizedItem :=
  acc.filter (fun x => x.externalId != it.externalId) ++ [it]

/-- Modelled from the spec: duplicate external ids within a single batch are
deduplicated by keeping the last-seen record in fetch order
(spec section 4.3, tie-break cases). -/
def dedupBatch (batch : List NormalizedItem) : List NormalizedItem :=
  batch.foldl dedupStep []

/-- Field update applied to an existing item whose compared triple changed:
copy the batch fields, rerun classification only when the text changed,
refresh `updatedAt`, and record that a snapshot was taken now
(spec section 4.3, step 3). -/
def applyFieldUpdate (rules : RuleSet) (now : Int) (n : NormalizedItem) (x : StoredItem) : StoredItem :=
  { x with
    title := n.title
    description := n.description
    category := n.category
    currentBid := n.currentBid
    bidCount := n.bidCount
    endTime := n.endTime
    classification :=
      if textChanged x n then classify rules (itemText n.title n.description n.category)
      else x.classification
    updatedAt := now
    lastSnapshotAt := now }

/-- Mark an unchanged item as seen this pass (spec section 4.3, step 3:
"still update `updated-at`"). -/
def markSeen (now : Int) (x : StoredItem) : StoredItem :=
  { x with updatedAt := now }

/-- Mark an unchanged item as seen and snapshotted (daily-floor snapshot). -/
def markSeenSnap (now : Int) (x : StoredItem) : StoredItem :=
  { x with updatedAt := now, lastSnapshotAt := now }

/-- Modelled from the spec: the per-item upsert of section 4.3, steps 1-3
(source file `backend/app/services/scraper_jobs.py` is not in the provided
tree).  Absent: create `live`, classify, write an initial snapshot, count as
created.  Present with changed bid / bid count / end time: update fields,
append a snapshot, count as updated.  Present and unchanged: refresh
`updated-at` only, except that a snapshot is still taken when the last one is
at least a day old. -/
def upsertItem (rules : RuleSet) (src : String) (now : Int)
    (acc : Store × Counts) (n : NormalizedItem) : Store × Counts :=
  let st := acc.1
  let c := acc.2
  match findItem src n.externalId st.items with
  | none =>
    let cls := classify rules (itemText n.title n.description n.category)
    let item : StoredItem :=
      { sourceId := src
        externalId := n.externalId
        title := n.title
        description := n.description
        category := n.category
        currentBid := n.currentBid
        bidCount := n.bidCount
        endTime := n.endTime
        status := .live
        classification := cls
        needsReverify := false
        createdAt := now
        updatedAt := now
        lastSnapshotAt := now
        marketValue := none }
    (⟨st.items ++ [item],
      st.snapshots ++ [⟨src, n.externalId, now, n.currentBid, n.bidCount, .live⟩]⟩,
     { c with created := c.created + 1 })
  | some it =>
    if fieldsChanged it n then
      (⟨st.items.map (fun x => if itemKeyMatches src n.externalId x then applyFieldUpdate rules now n x else x),
        st.snapshots ++ [⟨src, n.externalId, now, n.currentBid, n.bidCount, it.status⟩]⟩,
       { c with updated := c.updated + 1 })
    else if dayMs ≤ now - it.lastSnapshotAt then
      (⟨st.items.map (fun x => if itemKeyMatches src n.externalId x then markSeenSnap now x else x),
        st.snapshots ++ [⟨src, n.externalId, now, n.currentBid, n.bidCount, it.status⟩]⟩, c)
    else
      (⟨st.items.map (fun x => if itemKeyMatches src n.externalId x then markSeen now x else x),
        st.snapshots⟩, c)

/-- Does step 4 transition this item to `ended` (used for the ended count)? -/
def step4Ends (src : String) (batchIds : List String) (now : Int) (it : StoredItem) : Bool :=
  it.sourceId == src && it.status == Status.live && !(batchIds.contains it.externalId) &&
    (match it.endTime with
     | some t => decide (t < now)
     | none => false)

/-- Modelled from the spec: section 4.3 step 4.  A `live` item of this source
absent from the batch is marked `ended` if its end time has passed; otherwise
it stays `live` but is flagged for re-verification. -/
def step4Item (src : String) (batchIds : List String) (now : Int) (it : StoredItem) : StoredItem :=
  if it.sourceId == src && it.status == Status.live && !(batchIds.contains it.externalId) then
    match it.endTime with
    | some t => if t < now then { it with status := .ended } else { it with needsReverify := true }
    | none => { it with needsReverify := true }
  else it

/-- Modelled from the spec: section 4.3 step 5, the maintenance sweep.
Independently of batch presence, any `live` item whose end time is strictly
in the past is marked `ended`. -/
def step5Item (now : Int) (it : StoredItem) : StoredItem :=
  if it.status == Status.live then
    match it.endTime with
    | some t => if t < now then { it with status := .ended } else it
    | none => it
  else it

/-- Modelled from the spec: one whole reconciliation pass (spec section 4.3):
dedup the batch, fold the per-item upserts in fetch order, run the
end-of-life pass for absent items (step 4), then the time-based maintenance
sweep (step 5). -/
def reconcile (rules : RuleSet) (src : String) (batch : List NormalizedItem)
    (now : Int) (st : Store) : Store × Counts :=
  let deduped := dedupBatch batch
  let r := deduped.foldl (upsertItem rules src now) (st, ⟨batch.length, 0, 0, 0⟩)
  let batchIds := deduped.map (fun n => n.externalId)
  let endedN := (r.1.items.filter (step4Ends src batchIds now)).length
  let afterStep4 : Store := ⟨r.1.items.map (step4Item src batchIds now), r.1.snapshots⟩
  let afterStep5 : Store := ⟨afterStep4.items.map (step5Item now), afterStep4.snapshots⟩
  (afterStep5, { r.2 with endedCnt := endedN })

/-- Number of price snapshots recorded for one item key. -/
def snapsFor (src eid : String) (st : Store) : Nat :=
  (st.snapshots.filter (fun s => s.sourceId == src && s.externalId == eid)).length

/-- The store already holds this batch record's item and its compared triple
(bid, bid count, end time) is unchanged — the state in which the upsert is a
pure "seen this pass" touch. -/
def lookupAgrees (src : String) (st : Store) (n : NormalizedItem) : Prop :=
  ∃ it, findItem src n.externalId st.items = some it ∧ fieldsChanged it n = false

/-- Outcome of one execution attempt of a Job (spec section 3,
"Run Record"). -/
inductive Outcome
  | success
  | failure
  | skippedAlreadyRunning
deriving DecidableEq

/-- One execution attempt of a Job, immutable once written (spec section 3). -/
structure RunRecord where
  startedAt : Int
  endedAt : Int
  outcome : Outcome
deriving DecidableEq

/-- A schedulable unit of work (spec section 3, "Job").  `activeRuns` counts
executions currently in progress; the single-flight guarantee of section 4.1
is that it never exceeds one. -/
structure Job where
  id : String
  intervalMinutes : Nat
  enabled : Bool
  paused : Bool
  running : Bool
  activeRuns : Nat
  history : List RunRecord
deriving DecidableEq

/-- The Job Scheduler's owned collection (spec section 4.1). -/
structure Scheduler where
  jobs : List Job
deriving DecidableEq

/-- Bound on the ring of recent run records kept per job. -/
def maxHistory : Nat := 50

/-- Lookup of a job by id. -/
def findJob (jid : String) (s : Scheduler) : Option Job :=
  s.jobs.find? (fun j => j.id == jid)

/-- Result of a `runNow` request (spec section 4.1). -/
inductive RunNowResult
  | started
  | skippedAlreadyRunning
  | notFound
deriving DecidableEq

/-- Atomically mark a job as having one more execution in progress. -/
def startJob (j : Job) : Job :=
  { j with running := true, activeRuns := j.activeRuns + 1 }

/-- Modelled from the spec: `runNow(jobId)` of section 4.1 (source file
`backend/app/services/scheduler.py` is not in the provided tree).  If the job
is already running the request returns a "skipped — already running" outcome
and changes nothing; otherwise the running flag is test-and-set and an
execution starts. -/
def runNow (jid : String) (s : Scheduler) : RunNowResult × Scheduler :=
  match findJob jid s with
  | none => (.notFound, s)
  | some j =>
    if j.running then (.skippedAlreadyRunning, s)
    else (.started, ⟨s.jobs.map (fun x => if x.id == jid then startJob x else x)⟩)

/-- Modelled from the spec: the interval-driven trigger path of section 4.1.
A disabled, paused, or currently-running job is simply not started; missed
intervals are not backfilled. -/
def tickTrigger (jid : String) (s : Scheduler) : Scheduler :=
  ⟨s.jobs.map (fun x =>
    if x.id == jid && x.enabled && !x.paused && !x.running then startJob x else x)⟩

/-- Modelled from the spec: completion of an execution (section 4.1).  The
running flag is cleared and a Run Record is appended to the bounded history
(oldest evicted first) on every exit path. -/
def completeJob (jid : String) (rec : RunRecord) (s : Scheduler) : Scheduler :=
  ⟨s.jobs.map (fun x =>
    if x.id == jid && x.running then
      let h := x.history ++ [rec]
      { x with
        running := false
        activeRuns := x.activeRuns - 1
        history := if maxHistory < h.length then h.drop (h.length - maxHistory) else h }
    else x)⟩

/-- Modelled from the spec: `enable(jobId, intervalMinutes?)` of section 4.1.
Re-enabling an active job updates its interval without losing history;
enabling an unknown job registers it idle with the given interval. -/
def enableJob (jid : String) (interval : Nat) (s : Scheduler) : Scheduler :=
  match findJob jid s with
  | some _ =>
    ⟨s.jobs.map (fun x =>
      if x.id == jid then { x with enabled := true, intervalMinutes := interval } else x)⟩
  | none =>
    ⟨s.jobs ++ [{ id := jid, intervalMinutes := interval, enabled := true, paused := false,
                  running := false, activeRuns := 0, history := [] }]⟩

/-- Modelled from the spec: `disable(jobId)` of section 4.1; the job leaves
the active schedule but its history is kept. -/
def disableJob (jid : String) (s : Scheduler) : Scheduler :=
  ⟨s.jobs.map (fun x => if x.id == jid then { x with enabled := false } else x)⟩

/-- Modelled from the spec: `pause(jobId)` of section 4.1. -/
def pauseJob (jid : String) (s : Scheduler) : Scheduler :=
  ⟨s.jobs.map (fun x => if x.id == jid then { x with paused := true } else x)⟩

/-- Modelled from the spec: `resume(jobId)` of section 4.1. -/
def resumeJob (jid : String) (s : Scheduler) : Scheduler :=
  ⟨s.jobs.map (fun x => if x.id == jid then { x with paused := false } else x)⟩

/-- One control or lifecycle event applied to the scheduler state. -/
inductive SchedOp
  | enable (jid : String) (interval : Nat)
  | disable (jid : String)
  | pause (jid : String)
  | resume (jid : String)
  | manualRun (jid : String)
  | tick (jid : String)
  | complete (jid : String) (rec : RunRecord)
deriving DecidableEq

/-- Apply one scheduler event. -/
def applyOp (s : Scheduler) : SchedOp → Scheduler
  | .enable jid interval => enableJob jid interval s
  | .disable jid => disableJob jid s
  | .pause jid => pauseJob jid s
  | .resume jid => resumeJob jid s
  | .manualRun jid => (runNow jid s).2
  | .tick jid => tickTrigger jid s
  | .complete jid rec => completeJob jid rec s

/-- The scheduler at process start: no jobs registered. -/
def initScheduler : Scheduler := ⟨[]⟩

/-- Run a sequence of scheduler events from a state. -/
def runOps (s : Scheduler) (ops : List SchedOp) : Scheduler :=
  ops.foldl applyOp s

/-- Result of a `getEstimate` read (spec section 4.5): a cache hit, a freshly
computed value, an explicit "unavailable" on external failure, or a missing
item. -/
inductive EstimateResult
  | fromCache (e : Estimate)
  | fresh (e : Estimate)
  | unavailable
  | itemNotFound
deriving DecidableEq

/-- Modelled from the spec: `getEstimate(itemKey)` of section 4.5 and the
`market_value_estimate` resolver described in the deployment notes (source
file `backend/app/graphql/queries.py` is not in the provided tree).  Reads
the Auction Item's cached estimate fields first; if present, returns them
without invoking the external estimation capability.  If absent, invokes the
external call once, persists the result onto the item, and returns it; a
failed external call returns "unavailable" and writes nothing.  The third
component counts external calls made by this read. -/
def getEstimate (external : StoredItem → Option Estimate) (src eid : String)
    (st : Store) : EstimateResult × Store × Nat :=
  match findItem src eid st.items with
  | none => (.itemNotFound, st, 0)
  | some it =>
    match it.marketValue with
    | some e => (.fromCache e, st, 0)
    | none =>
      match external it with
      | some e =>
        (.fresh e,
         ⟨st.items.map (fun x => if itemKeyMatches src eid x then { x with marketValue := some e } else x),
          st.snapshots⟩, 1)
      | none => (.unavailable, st, 1)

end CardWatch

namespace Frontend

/-- A JavaScript timestamp: `Date.getTime()` is either a number of
milliseconds or `NaN` for an unparsable date string. -/
inductive JSTime
  | nan
  | ms (t : Int)
deriving DecidableEq

/-- From `AuctionCard.tsx` and `app/page.tsx`: a string with no `Z` and no
`+` timezone indicator is interpreted as UTC by appending `Z`. -/
def toUTC (s : String) : String :=
  if s.contains 'Z' || s.contains '+' then s else s ++ "Z"

/-- JavaScript falsiness of an optional number: `undefined` and `0` are
falsy. -/
def jsFalsyNum (a : Option Int) : Bool :=
  match a with
  | none => true
  | some x => x == 0

/-- JavaScript `a || b` on an optional string: `undefined` and the empty
string fall through to the default. -/
def jsOrStr (a : Option String) (b : String) : String :=
  match a with
  | none => b
  | some s => if s == "" then b else s

/-- Milliseconds per day. -/
def msPerDay : Int := 1000 * 60 * 60 * 24

/-- Milliseconds per hour. -/
def msPerHour : Int := 1000 * 60 * 60

/-- Milliseconds per minute. -/
def msPerMinute : Int := 1000 * 60

namespace WatchlistPage

/-- From `app/page.tsx` (`WatchlistPage.isEnded`): an item is ended when its
parsed end time is strictly before now; a missing end time is not ended, and
an unparsable one (`NaN`) compares false.  The JS `Date` parser is abstracted
as `parse`. -/
def isEnded (parse : String → JSTime) (now : Int) (endTime : Option String) : Bool :=
  match endTime with
  | none => false
  | some s =>
    match parse (toUTC s) with
    | .nan => false
    | .ms t => t < now

/-- From `app/page.tsx` (`WatchlistPage.formatTimeRemaining`): renders
"Unknown" for a missing end time, "Ended" when the remaining difference is
negative, and a days/hours/minutes string otherwise; an unparsable date
yields the JS string `NaNm`. -/
def formatTimeRemaining (parse : String → JSTime) (now : Int) (endTime : Option String) : String :=
  match endTime with
  | none => "Unknown"
  | some s =>
    match parse (toUTC s) with
    | .nan => "NaNm"
    | .ms t =>
      let diff := t - now
      if diff < 0 then "Ended"
      else
        let days := diff / msPerDay
        let hours := (diff % msPerDay) / msPerHour
        let minutes := (diff % msPerHour) / msPerMinute
        if 0 < days then toString days ++ "d " ++ toString hours ++ "h"
        else if 0 < hours then toString hours ++ "h " ++ toString minutes ++ "m"
        else toString minutes ++ "m"

end WatchlistPage

namespace AuctionCard

/-- From `AuctionCard.tsx` (`formatTimeRemaining`), textually identical to
the copy in `app/page.tsx`. -/
def formatTimeRemaining (parse : String → JSTime) (now : Int) (endTime : Option String) : String :=
  match endTime with
  | none => "Unknown"
  | some s =>
    match parse (toUTC s) with
    | .nan => "NaNm"
    | .ms t =>
      let diff := t - now
      if diff < 0 then "Ended"
      else
        let days := diff / msPerDay
        let hours := (diff % msPerDay) / msPerHour
        let minutes := (diff % msPerHour) / msPerMinute
        if 0 < days then toString days ++ "d " ++ toString hours ++ "h"
        else if 0 < hours then toString hours ++ "h " ++ toString minutes ++ "m"
        else toString minutes ++ "m"

end AuctionCard

/-- The resolved estimate shape used by `MarketValueBadge.tsx`. -/
structure MarketValueEstimate where
  estimatedLow : Option Int
  estimatedHigh : Option Int
  estimatedAverage : Option Int
  confidence : String
  notes : String
deriving DecidableEq

namespace MarketValueBadge

/-- From `MarketValueBadge.tsx`: `const needsQuery = !marketValueAvg` — the
badge queries the server whenever the cached average passed from the parent
is absent or zero (both are JS-falsy). -/
def needsQuery (marketValueAvg : Option Int) : Bool :=
  jsFalsyNum marketValueAvg

/-- From `MarketValueBadge.tsx`: the estimate object the component renders —
the query result when a query was needed and returned data, otherwise the
parent's cached fields with `confidence: marketValueConfidence || 'low'` and
empty notes. -/
def resolveEstimate (marketValueLow marketValueHigh marketValueAvg : Option Int)
    (marketValueConfidence : Option String)
    (queryData : Option MarketValueEstimate) : MarketValueEstimate :=
  if needsQuery marketValueAvg then
    match queryData with
    | some e => e
    | none =>
      { estimatedLow := marketValueLow
        estimatedHigh := marketValueHigh
        estimatedAverage := marketValueAvg
        confidence := jsOrStr marketValueConfidence "low"
        notes := "" }
  else
    { estimatedLow := marketValueLow
      estimatedHigh := marketValueHigh
      estimatedAverage := marketValueAvg
      confidence := jsOrStr marketValueConfidence "low"
      notes := "" }

/-- From `MarketValueBadge.tsx`: `if (!estimate.estimatedAverage) return
null` — the badge renders nothing when the resolved average is JS-falsy. -/
def rendersNothing (e : MarketValueEstimate) : Bool :=
  jsFalsyNum e.estimatedAverage

end MarketValueBadge

end Frontend

namespace CardWatch

/-- A small concrete rule set used to exercise the model on closed inputs. -/
def sampleRules : RuleSet :=
  ⟨1, ["pokemon"], [("jordan", "BASKETBALL")], [("rookie ticket", "FOOTBALL")]⟩

/-- A concrete stored item used to exercise the model on closed inputs. -/
def baseItem : StoredItem :=
  { sourceId := "goldin"
    externalId := "lot1"
    title := "t"
    description := "d"
    category := "c"
    currentBid := 10
    bidCount := 2
    endTime := none
    status := .live
    classification := ⟨"OTHER", 0⟩
    needsReverify := false
    createdAt := 0
    updatedAt := 0
    lastSnapshotAt := 0
    marketValue := none }

/-- Concrete item whose end time is already in the past at time 0. -/
def itemPast : StoredItem := { baseItem with endTime := some (-5) }

/-- Concrete item whose end time is still in the future at time 0. -/
def itemFuture : StoredItem := { baseItem with endTime := some 100 }

/-- Concrete batch record agreeing with `baseItem` on bid and bid count but
carrying a different end time. -/
def recNewEndTime : NormalizedItem :=
  { externalId := "lot1", title := "t", description := "d", category := "c",
    currentBid := 10, bidCount := 2, endTime := some 200 }

/-- Concrete batch record with a changed current bid. -/
def recNewBid : NormalizedItem :=
  { externalId := "lot1", title := "t", description := "d", category := "c",
    currentBid := 15, bidCount := 2, endTime := some 200 }

/-- Concrete store holding `baseItem` with an old end time recorded. -/
def storeWithEnd : Store := ⟨[{ baseItem with endTime := some 100 }], []⟩

/-- Concrete cached estimate used to exercise the value-estimate cache. -/
def estSample : Estimate := ⟨50, 150, 100, "high", "", 0⟩

/-- Concrete external estimation capability that always succeeds with
`estSample`. -/
def extAlways : StoredItem → Option Estimate := fun _ => some estSample

/-- Concrete store whose single item has no cached estimate. -/
def storeNoEstimate : Store := ⟨[baseItem], []⟩

/-- Concrete job that is currently running. -/
def jobRunning : Job :=
  { id := "cardhobby", intervalMinutes := 30, enabled := true, paused := false,
    running := true, activeRuns := 1, history := [] }

/-- Concrete scheduler state with one running job. -/
def schedRunning : Scheduler := ⟨[jobRunning]⟩

end CardWatch

namespace Frontend

theorem append_m_ne_Ended (s : String) : s ++ "m" ≠ "Ended" := by
  intro h
  have hd : s.data ++ ['m'] = ['E', 'n', 'd', 'e', 'd'] := by
    have h2 := congrArg String.data h
    rwa [String.data_append] at h2
  have h3 := congrArg List.getLast? hd
  rw [List.getLast?_concat] at h3
  have h4 : (['E', 'n', 'd', 'e', 'd'] : List Char).getLast? = some 'd' := rfl
  rw [h4] at h3
  exact absurd h3 (by decide)

theorem append_h_ne_Ended (s : String) : s ++ "h" ≠ "Ended" := by
  intro h
  have hd : s.data ++ ['h'] = ['E', 'n', 'd', 'e', 'd'] := by
    have h2 := congrArg String.data h
    rwa [String.data_append] at h2
  have h3 := congrArg List.getLast? hd
  rw [List.getLast?_concat] at h3
  have h4 : (['E', 'n', 'd', 'e', 'd'] : List Char).getLast? = some 'd' := rfl
  rw [h4] at h3
  exact absurd h3 (by decide)

/-- Claim C10: the card's remaining-time display and the watchlist's ended
check agree — at the same instant and under the same date parser, `isEnded`
is true exactly when `formatTimeRemaining` returns "Ended", both interpreting
a string with no timezone indicator as UTC via `toUTC` and both treating a
missing end time as not ended; the two textually identical copies of
`formatTimeRemaining` coincide. -/
theorem isEnded_agrees_with_formatTimeRemaining (parse : String → JSTime) (now : Int)
    (endTime : Option String) :
    (WatchlistPage.isEnded parse now endTime = true ↔
       WatchlistPage.formatTimeRemaining parse now endTime = "Ended")
    ∧ AuctionCard.formatTimeRemaining parse now endTime =
        WatchlistPage.formatTimeRemaining parse now endTime := by
  refine ⟨?_, rfl⟩
  cases endTime with
  | none =>
    simp only [WatchlistPage.isEnded, WatchlistPage.formatTimeRemaining]
    constructor
    · intro h; exact absurd h (by decide)
    · intro h; exact absurd h (by decide)
  | some s =>
    cases hp : parse (toUTC s) with
    | nan =>
      simp only [WatchlistPage.isEnded, WatchlistPage.formatTimeRemaining, hp]
      constructor
      · intro h; exact absurd h (by decide)
      · intro h; exact absurd h (by decide)
    | ms t =>
      simp only [WatchlistPage.isEnded, WatchlistPage.formatTimeRemaining, hp]
      by_cases hneg : t - now < 0
      · have ht : t < now := by omega
        simp [hneg, ht]
      · have ht : ¬t < now := by omega
        have hrest :
            (if 0 < (t - now) / msPerDay then
               toString ((t - now) / msPerDay) ++ "d " ++ toString ((t - now) % msPerDay / msPerHour) ++ "h"
             else if 0 < (t - now) % msPerDay / msPerHour then
               toString ((t - now) % msPerDay / msPerHour) ++ "h " ++ toString ((t - now) % msPerHour / msPerMinute) ++ "m"
             else toString ((t - now) % msPerHour / msPerMinute) ++ "m") ≠ "Ended" := by
          split_ifs with h1 h2
          · exact append_h_ne_Ended _
          · exact append_m_ne_Ended _
          · exact append_m_ne_Ended _
        simp [hneg, ht, hrest]

/-- Claim C9: the market value badge treats a zero or missing estimated
average as "no estimate" — the badge renders nothing exactly when the
resolved estimate's average is absent or 0, and a cached average of 0 (a
JS-falsy value) makes `needsQuery` true, triggering a fresh query even
though cached estimate fields exist. -/
theorem badge_zero_average_is_no_estimate (mLow mHigh mAvg : Option Int)
    (mConf : Option String) (q : Option MarketValueEstimate) :
    (MarketValueBadge.rendersNothing (MarketValueBadge.resolveEstimate mLow mHigh mAvg mConf q) = true ↔
       ((MarketValueBadge.resolveEstimate mLow mHigh mAvg mConf q).estimatedAverage = none ∨
        (MarketValueBadge.resolveEstimate mLow mHigh mAvg mConf q).estimatedAverage = some 0))
    ∧ MarketValueBadge.needsQuery (some 0) = true := by
  refine ⟨?_, rfl⟩
  generalize MarketValueBadge.resolveEstimate mLow mHigh mAvg mConf q = e
  unfold MarketValueBadge.rendersNothing jsFalsyNum
  cases he : e.estimatedAverage with
  | none => simp
  | some x => simp [beq_iff_eq]

end Frontend

namespace CardWatch

/-- Claim C7: the classifier is a pure function of the rule set and input
text — two calls with identical input text (and the same rule set) return
the identical (label, confidence) pair. -/
theorem classify_pure (rules : RuleSet) (t1 t2 : String) (h : t1 = t2) :
    classify rules t1 = classify rules t2 := by
  rw [h]

theorem classify_pure_witness :
    classify sampleRules "1997 jordan card" = classify sampleRules "1997 jordan card" ∧
    classify sampleRules "1997 jordan card" = ⟨"BASKETBALL", 90⟩ :=
  ⟨classify_pure sampleRules "1997 jordan card" "1997 jordan card" rfl, by decide⟩

theorem reconcile_items_shape (rules : RuleSet) (src : String) (batch : List NormalizedItem)
    (now : Int) (st : Store) :
    (reconcile rules src batch now st).1.items =
      (((dedupBatch batch).foldl (upsertItem rules src now) (st, ⟨batch.length, 0, 0, 0⟩)).1.items.map
        (step4Item src ((dedupBatch batch).map (fun n => n.externalId)) now)).map (step5Item now) := rfl

theorem reconcile_snaps_shape (rules : RuleSet) (src : String) (batch : List NormalizedItem)
    (now : Int) (st : Store) :
    (reconcile rules src batch now st).1.snapshots =
      ((dedupBatch batch).foldl (upsertItem rules src now) (st, ⟨batch.length, 0, 0, 0⟩)).1.snapshots := rfl

theorem reconcile_counts_created (rules : RuleSet) (src : String) (batch : List NormalizedItem)
    (now : Int) (st : Store) :
    (reconcile rules src batch now st).2.created =
      ((dedupBatch batch).foldl (upsertItem rules src now) (st, ⟨batch.length, 0, 0, 0⟩)).2.created := rfl

theorem reconcile_counts_updated (rules : RuleSet) (src : String) (batch : List NormalizedItem)
    (now : Int) (st : Store) :
    (reconcile rules src batch now st).2.updated =
      ((dedupBatch batch).foldl (upsertItem rules src now) (st, ⟨batch.length, 0, 0, 0⟩)).2.updated := rfl

theorem step5Item_endTime (now : Int) (x : StoredItem) :
    (step5Item now x).endTime = x.endTime := by
  cases hs : x.status <;> cases he : x.endTime <;>
    simp [step5Item, hs, he] <;> split <;> simp [he]

/-- Claim C2: after every reconciliation pass, every item whose end time is
strictly in the past has status `ended`, regardless of batch presence — the
step-5 maintenance sweep runs over the whole store. -/
theorem sweep_ends_past_items (rules : RuleSet) (src : String) (batch : List NormalizedItem)
    (now : Int) (st : Store) (it : StoredItem) (t : Int)
    (hmem : it ∈ (reconcile rules src batch now st).1.items)
    (het : it.endTime = some t) (hpast : t < now) :
    it.status = Status.ended := by
  rw [reconcile_items_shape] at hmem
  obtain ⟨x, hx, hxe⟩ := List.mem_map.mp hmem
  subst hxe
  rw [step5Item_endTime] at het
  cases hs : x.status with
  | ended => simp [step5Item, hs]
  | live => simp [step5Item, hs, het, hpast]

theorem sweep_ends_past_items_witness :
    ({ itemPast with status := Status.ended } : StoredItem).status = Status.ended :=
  sweep_ends_past_items sampleRules "goldin" [] 0 ⟨[itemPast], []⟩
    { itemPast with status := Status.ended } (-5) (by decide) (by decide) (by decide)

end CardWatch

namespace CardWatch

theorem findItem_some_keys {src eid : String} {items : List StoredItem} {y : StoredItem}
    (h : findItem src eid items = some y) : y.sourceId = src ∧ y.externalId = eid := by
  have hp := List.find?_some h
  unfold itemKeyMatches at hp
  simp only [Bool.and_eq_true, beq_iff_eq] at hp
  exact hp

theorem findItem_map_keyPreserving {f : StoredItem → StoredItem}
    (hf : ∀ x, (f x).sourceId = x.sourceId ∧ (f x).externalId = x.externalId)
    (src eid : String) (items : List StoredItem) :
    findItem src eid (items.map f) = (findItem src eid items).map f := by
  unfold findItem
  rw [List.find?_map]
  have hcomp : itemKeyMatches src eid ∘ f = itemKeyMatches src eid := by
    funext x
    simp only [Function.comp]
    unfold itemKeyMatches
    rw [(hf x).1, (hf x).2]
  rw [hcomp]

theorem applyFieldUpdate_keys (rules : RuleSet) (now : Int) (n : NormalizedItem) :
    ∀ x, (applyFieldUpdate rules now n x).sourceId = x.sourceId ∧
      (applyFieldUpdate rules now n x).externalId = x.externalId :=
  fun _ => ⟨rfl, rfl⟩

theorem markSeen_keys (now : Int) :
    ∀ x, (markSeen now x).sourceId = x.sourceId ∧ (markSeen now x).externalId = x.externalId :=
  fun _ => ⟨rfl, rfl⟩

theorem markSeenSnap_keys (now : Int) :
    ∀ x, (markSeenSnap now x).sourceId = x.sourceId ∧ (markSeenSnap now x).externalId = x.externalId :=
  fun _ => ⟨rfl, rfl⟩

theorem condUpdate_keys (p : StoredItem → Bool) (g : StoredItem → StoredItem)
    (hg : ∀ x, (g x).sourceId = x.sourceId ∧ (g x).externalId = x.externalId) :
    ∀ x, ((fun y => if p y then g y else y) x).sourceId = x.sourceId ∧
      ((fun y => if p y then g y else y) x).externalId = x.externalId := by
  intro x
  by_cases h : p x <;> simp [h, hg x]

theorem findItem_upsert_of_ne (rules : RuleSet) (src : String) (now : Int)
    (st : Store) (c : Counts) (n : NormalizedItem) (eid : String)
    (hne : eid ≠ n.externalId) :
    findItem src eid (upsertItem rules src now (st, c) n).1.items = findItem src eid st.items := by
  have hbe : (n.externalId == eid) = false := beq_eq_false_iff_ne.mpr fun hh => hne hh.symm
  cases hf : findItem src n.externalId st.items with
  | none =>
    simp only [upsertItem, hf]
    unfold findItem
    rw [List.find?_append]
    have hnone : List.find? (itemKeyMatches src eid)
        [{ sourceId := src, externalId := n.externalId, title := n.title,
           description := n.description, category := n.category, currentBid := n.currentBid,
           bidCount := n.bidCount, endTime := n.endTime, status := .live,
           classification := classify rules (itemText n.title n.description n.category),
           needsReverify := false, createdAt := now, updatedAt := now,
           lastSnapshotAt := now, marketValue := none }] = none := by
      simp [List.find?, itemKeyMatches, hbe]
    rw [hnone]
    cases List.find? (itemKeyMatches src eid) st.items <;> rfl
  | some it =>
    have hgy : ∀ (g : StoredItem → StoredItem),
        (∀ x, (g x).sourceId = x.sourceId ∧ (g x).externalId = x.externalId) →
        findItem src eid
          (st.items.map (fun y => if itemKeyMatches src n.externalId y then g y else y)) =
          findItem src eid st.items := by
      intro g hg
      rw [findItem_map_keyPreserving (condUpdate_keys _ g hg)]
      cases hfe : findItem src eid st.items with
      | none => rfl
      | some y =>
        have hk := findItem_some_keys hfe
        have hmatch : itemKeyMatches src n.externalId y = false := by
          have hbe2 : (eid == n.externalId) = false := beq_eq_false_iff_ne.mpr hne
          unfold itemKeyMatches
          rw [hk.2, hbe2, Bool.and_false]
        simp [hmatch]
    simp only [upsertItem, hf]
    split
    · exact hgy _ (applyFieldUpdate_keys rules now n)
    · split
      · exact hgy _ (markSeenSnap_keys now)
      · exact hgy _ (markSeen_keys now)

theorem snapsFor_upsert_of_ne (rules : RuleSet) (src : String) (now : Int)
    (st : Store) (c : Counts) (n : NormalizedItem) (eid : String)
    (hne : eid ≠ n.externalId) :
    snapsFor src eid (upsertItem rules src now (st, c) n).1 = snapsFor src eid st := by
  have hbe : (n.externalId == eid) = false := beq_eq_false_iff_ne.mpr fun hh => hne hh.symm
  cases hf : findItem src n.externalId st.items with
  | none =>
    simp only [upsertItem, hf]
    unfold snapsFor
    rw [List.filter_append]
    simp [hbe]
  | some it =>
    simp only [upsertItem, hf]
    split
    · unfold snapsFor
      rw [List.filter_append]
      simp [hbe]
    · split
      · unfold snapsFor
        rw [List.filter_append]
        simp [hbe]
      · rfl

end CardWatch

namespace CardWatch

theorem upsert_establishes_la (rules : RuleSet) (src : String) (now : Int)
    (st : Store) (c : Counts) (n : NormalizedItem) :
    lookupAgrees src (upsertItem rules src now (st, c) n).1 n := by
  cases hf : findItem src n.externalId st.items with
  | none =>
    simp only [upsertItem, hf]
    refine ⟨{ sourceId := src, externalId := n.externalId, title := n.title,
              description := n.description, category := n.category, currentBid := n.currentBid,
              bidCount := n.bidCount, endTime := n.endTime, status := .live,
              classification := classify rules (itemText n.title n.description n.category),
              needsReverify := false, createdAt := now, updatedAt := now,
              lastSnapshotAt := now, marketValue := none }, ?_, ?_⟩
    · unfold findItem
      rw [List.find?_append]
      have h1 : List.find? (itemKeyMatches src n.externalId) st.items = none := hf
      rw [h1]
      simp [List.find?, itemKeyMatches]
    · simp [fieldsChanged]
  | some it =>
    have hp : itemKeyMatches src n.externalId it = true := List.find?_some hf
    simp only [upsertItem, hf]
    split_ifs with hc hfloor
    · refine ⟨applyFieldUpdate rules now n it, ?_, ?_⟩
      · rw [findItem_map_keyPreserving (condUpdate_keys _ _ (applyFieldUpdate_keys rules now n))]
        rw [hf]
        simp [hp]
      · simp [fieldsChanged, applyFieldUpdate]
    · have hfc : fieldsChanged it n = false := by revert hc; cases fieldsChanged it n <;> simp
      refine ⟨markSeenSnap now it, ?_, ?_⟩
      · rw [findItem_map_keyPreserving (condUpdate_keys _ _ (markSeenSnap_keys now))]
        rw [hf]
        simp [hp]
      · exact hfc
    · have hfc : fieldsChanged it n = false := by revert hc; cases fieldsChanged it n <;> simp
      refine ⟨markSeen now it, ?_, ?_⟩
      · rw [findItem_map_keyPreserving (condUpdate_keys _ _ (markSeen_keys now))]
        rw [hf]
        simp [hp]
      · exact hfc

theorem upsert_preserves_la_of_ne (rules : RuleSet) (src : String) (now : Int)
    (st : Store) (c : Counts) (n m : NormalizedItem)
    (hne : m.externalId ≠ n.externalId) (h : lookupAgrees src st m) :
    lookupAgrees src (upsertItem rules src now (st, c) n).1 m := by
  obtain ⟨it, hfind, hfc⟩ := h
  refine ⟨it, ?_, hfc⟩
  rw [findItem_upsert_of_ne rules src now st c n m.externalId hne]
  exact hfind

theorem upsert_counts_of_la (rules : RuleSet) (src : String) (now : Int)
    (st : Store) (c : Counts) (n : NormalizedItem) (h : lookupAgrees src st n) :
    (upsertItem rules src now (st, c) n).2 = c := by
  obtain ⟨it, hf, hfc⟩ := h
  simp only [upsertItem, hf, hfc]
  rw [if_neg (show ¬(false = true) by simp)]
  split <;> rfl

theorem upsert_preserves_la_of_la (rules : RuleSet) (src : String) (now : Int)
    (st : Store) (c : Counts) (n : NormalizedItem) (hn : lookupAgrees src st n)
    (m : NormalizedItem) (hm : lookupAgrees src st m) :
    lookupAgrees src (upsertItem rules src now (st, c) n).1 m := by
  obtain ⟨it, hf, hfc⟩ := hn
  obtain ⟨y, hfm, hfcm⟩ := hm
  simp only [upsertItem, hf, hfc]
  rw [if_neg (show ¬(false = true) by simp)]
  split
  · refine ⟨(fun y0 => if itemKeyMatches src n.externalId y0 then markSeenSnap now y0 else y0) y, ?_, ?_⟩
    · rw [findItem_map_keyPreserving (condUpdate_keys _ _ (markSeenSnap_keys now))]
      rw [hfm]
      rfl
    · by_cases hk : itemKeyMatches src n.externalId y <;> simp only [hk, if_true, if_false] <;> exact hfcm
  · refine ⟨(fun y0 => if itemKeyMatches src n.externalId y0 then markSeen now y0 else y0) y, ?_, ?_⟩
    · rw [findItem_map_keyPreserving (condUpdate_keys _ _ (markSeen_keys now))]
      rw [hfm]
      rfl
    · by_cases hk : itemKeyMatches src n.externalId y <;> simp only [hk, if_true, if_false] <;> exact hfcm

theorem foldl_upsert_preserves_la (rules : RuleSet) (src : String) (now : Int)
    (l : List NormalizedItem) (m : NormalizedItem)
    (hne : ∀ n ∈ l, m.externalId ≠ n.externalId) :
    ∀ st c, lookupAgrees src st m →
      lookupAgrees src (l.foldl (upsertItem rules src now) (st, c)).1 m := by
  induction l with
  | nil => intro st c h; exact h
  | cons a t ih =>
    intro st c h
    rw [List.foldl_cons]
    have h1 := upsert_preserves_la_of_ne rules src now st c a m (hne a (by simp)) h
    exact ih (fun n hn => hne n (by simp [hn]))
      (upsertItem rules src now (st, c) a).1 (upsertItem rules src now (st, c) a).2 h1

theorem foldl_upsert_establishes_la (rules : RuleSet) (src : String) (now : Int)
    (l : List NormalizedItem)
    (hdist : l.Pairwise (fun p q => p.externalId ≠ q.externalId)) :
    ∀ st c, ∀ n ∈ l, lookupAgrees src (l.foldl (upsertItem rules src now) (st, c)).1 n := by
  induction l with
  | nil => intro st c n hn; cases hn
  | cons a t ih =>
    obtain ⟨ha, ht⟩ := List.pairwise_cons.mp hdist
    intro st c n hn
    rw [List.foldl_cons]
    rcases List.mem_cons.mp hn with rfl | hn'
    · have h1 := upsert_establishes_la rules src now st c n
      exact foldl_upsert_preserves_la rules src now t n ha
        (upsertItem rules src now (st, c) n).1 (upsertItem rules src now (st, c) n).2 h1
    · exact ih ht (upsertItem rules src now (st, c) a).1 (upsertItem rules src now (st, c) a).2 n hn'

theorem foldl_upsert_counts_of_la (rules : RuleSet) (src : String) (now : Int)
    (l : List NormalizedItem) :
    ∀ st c, (∀ n ∈ l, lookupAgrees src st n) →
      (l.foldl (upsertItem rules src now) (st, c)).2 = c := by
  induction l with
  | nil => intro st c _; rfl
  | cons a t ih =>
    intro st c hall
    rw [List.foldl_cons]
    have ha := hall a (by simp)
    have hc := upsert_counts_of_la rules src now st c a ha
    have hpres : ∀ n ∈ t, lookupAgrees src (upsertItem rules src now (st, c) a).1 n :=
      fun n hn => upsert_preserves_la_of_la rules src now st c a ha n (hall n (by simp [hn]))
    have h2 := ih (upsertItem rules src now (st, c) a).1 (upsertItem rules src now (st, c) a).2 hpres
    exact h2.trans hc

theorem la_of_map_fieldPreserving {f : StoredItem → StoredItem}
    (hf : ∀ x, (f x).sourceId = x.sourceId ∧ (f x).externalId = x.externalId ∧
      (f x).currentBid = x.currentBid ∧ (f x).bidCount = x.bidCount ∧ (f x).endTime = x.endTime)
    (src : String) (items : List StoredItem) (snaps snaps' : List Snapshot) (n : NormalizedItem)
    (h : lookupAgrees src ⟨items, snaps⟩ n) : lookupAgrees src ⟨items.map f, snaps'⟩ n := by
  obtain ⟨it, hfind, hfc⟩ := h
  have h2 : findItem src n.externalId items = some it := hfind
  refine ⟨f it, ?_, ?_⟩
  · show findItem src n.externalId (items.map f) = some (f it)
    rw [findItem_map_keyPreserving (fun x => ⟨(hf x).1, (hf x).2.1⟩), h2]
    rfl
  · unfold fieldsChanged at hfc ⊢
    rw [(hf it).2.2.1, (hf it).2.2.2.1, (hf it).2.2.2.2]
    exact hfc

theorem step4Item_fields (src : String) (ids : List String) (now : Int) :
    ∀ x, (step4Item src ids now x).sourceId = x.sourceId ∧
      (step4Item src ids now x).externalId = x.externalId ∧
      (step4Item src ids now x).currentBid = x.currentBid ∧
      (step4Item src ids now x).bidCount = x.bidCount ∧
      (step4Item src ids now x).endTime = x.endTime := by
  intro x
  unfold step4Item
  split
  · split
    · split
      · exact ⟨rfl, rfl, rfl, rfl, rfl⟩
      · exact ⟨rfl, rfl, rfl, rfl, rfl⟩
    · exact ⟨rfl, rfl, rfl, rfl, rfl⟩
  · exact ⟨rfl, rfl, rfl, rfl, rfl⟩

theorem step5Item_fields (now : Int) :
    ∀ x, (step5Item now x).sourceId = x.sourceId ∧
      (step5Item now x).externalId = x.externalId ∧
      (step5Item now x).currentBid = x.currentBid ∧
      (step5Item now x).bidCount = x.bidCount ∧
      (step5Item now x).endTime = x.endTime := by
  intro x
  unfold step5Item
  split
  · split
    · split
      · exact ⟨rfl, rfl, rfl, rfl, rfl⟩
      · exact ⟨rfl, rfl, rfl, rfl, rfl⟩
    · exact ⟨rfl, rfl, rfl, rfl, rfl⟩
  · exact ⟨rfl, rfl, rfl, rfl, rfl⟩

theorem dedupAux_mem (b : List NormalizedItem) :
    ∀ (acc : List NormalizedItem) (x : NormalizedItem),
      x ∈ b.foldl dedupStep acc → x ∈ acc ∨ x ∈ b := by
  induction b with
  | nil => intro acc x h; exact Or.inl h
  | cons a t ih =>
    intro acc x h
    rw [List.foldl_cons] at h
    rcases ih (dedupStep acc a) x h with h1 | h1
    · unfold dedupStep at h1
      rcases List.mem_append.mp h1 with h2 | h2
      · exact Or.inl (List.mem_of_mem_filter h2)
      · simp only [List.mem_singleton] at h2
        subst h2
        exact Or.inr (by simp)
    · exact Or.inr (by simp [h1])

theorem mem_of_mem_dedupBatch {batch : List NormalizedItem} {x : NormalizedItem}
    (h : x ∈ dedupBatch batch) : x ∈ batch := by
  rcases dedupAux_mem batch [] x h with h1 | h1
  · cases h1
  · exact h1

theorem dedupAux_pairwise (b : List NormalizedItem) :
    ∀ acc, acc.Pairwise (fun p q => p.externalId ≠ q.externalId) →
      (b.foldl dedupStep acc).Pairwise (fun p q => p.externalId ≠ q.externalId) := by
  induction b with
  | nil => intro acc h; exact h
  | cons a t ih =>
    intro acc h
    rw [List.foldl_cons]
    apply ih
    unfold dedupStep
    rw [List.pairwise_append]
    refine ⟨List.Pairwise.filter _ h, by simp, ?_⟩
    intro p hp q hq
    simp only [List.mem_singleton] at hq
    subst hq
    have h2 := (List.mem_filter.mp hp).2
    simpa [bne_iff_ne] using h2

theorem dedupBatch_pairwise (batch : List NormalizedItem) :
    (dedupBatch batch).Pairwise (fun p q => p.externalId ≠ q.externalId) :=
  dedupAux_pairwise batch [] List.Pairwise.nil

/-- Claim C1: reconciliation is idempotent on counts — re-running the merge
with the same unchanged batch against the state produced by the first run
yields zero "created" and zero "updated" counts, for any starting store and
any pair of pass times. -/
theorem reconcile_idempotent_counts (rules : RuleSet) (src : String)
    (batch : List NormalizedItem) (now1 now2 : Int) (st0 : Store) :
    (reconcile rules src batch now2 (reconcile rules src batch now1 st0).1).2.created = 0 ∧
    (reconcile rules src batch now2 (reconcile rules src batch now1 st0).1).2.updated = 0 := by
  have hla : ∀ n ∈ dedupBatch batch,
      lookupAgrees src (reconcile rules src batch now1 st0).1 n := by
    intro n hn
    have h1 := foldl_upsert_establishes_la rules src now1 (dedupBatch batch)
      (dedupBatch_pairwise batch) st0 ⟨batch.length, 0, 0, 0⟩ n hn
    have h2 := la_of_map_fieldPreserving
      (step4Item_fields src ((dedupBatch batch).map (fun q => q.externalId)) now1) src
      ((dedupBatch batch).foldl (upsertItem rules src now1) (st0, ⟨batch.length, 0, 0, 0⟩)).1.items
      ((dedupBatch batch).foldl (upsertItem rules src now1) (st0, ⟨batch.length, 0, 0, 0⟩)).1.snapshots
      ((dedupBatch batch).foldl (upsertItem rules src now1) (st0, ⟨batch.length, 0, 0, 0⟩)).1.snapshots
      n h1
    have h3 := la_of_map_fieldPreserving (step5Item_fields now1) src
      (((dedupBatch batch).foldl (upsertItem rules src now1) (st0, ⟨batch.length, 0, 0, 0⟩)).1.items.map
        (step4Item src ((dedupBatch batch).map (fun q => q.externalId)) now1))
      ((dedupBatch batch).foldl (upsertItem rules src now1) (st0, ⟨batch.length, 0, 0, 0⟩)).1.snapshots
      ((dedupBatch batch).foldl (upsertItem rules src now1) (st0, ⟨batch.length, 0, 0, 0⟩)).1.snapshots
      n h2
    exact h3
  have hc := foldl_upsert_counts_of_la rules src now2 (dedupBatch batch)
    (reconcile rules src batch now1 st0).1 ⟨batch.length, 0, 0, 0⟩ hla
  constructor
  · rw [reconcile_counts_created, hc]
  · rw [reconcile_counts_updated, hc]

end CardWatch

namespace CardWatch

theorem upsert_mem_image (rules : RuleSet) (src : String) (now : Int)
    (st : Store) (c : Counts) (n : NormalizedItem) {x : StoredItem} (hx : x ∈ st.items) :
    ∃ y ∈ (upsertItem rules src now (st, c) n).1.items,
      y.sourceId = x.sourceId ∧ y.externalId = x.externalId ∧ y.status = x.status ∧
      (y.endTime = x.endTime ∨ (x.externalId = n.externalId ∧ y.endTime = n.endTime)) := by
  cases hf : findItem src n.externalId st.items with
  | none =>
    simp only [upsertItem, hf]
    exact ⟨x, List.mem_append_left _ hx, rfl, rfl, rfl, Or.inl rfl⟩
  | some it =>
    simp only [upsertItem, hf]
    split_ifs with hc hfloor
    · by_cases hk : itemKeyMatches src n.externalId x
      · have hke : x.externalId = n.externalId := by
          unfold itemKeyMatches at hk
          simp only [Bool.and_eq_true, beq_iff_eq] at hk
          exact hk.2
        refine ⟨applyFieldUpdate rules now n x, ?_, rfl, rfl, rfl, Or.inr ⟨hke, rfl⟩⟩
        have hmm := List.mem_map_of_mem
          (fun y0 => if itemKeyMatches src n.externalId y0 then applyFieldUpdate rules now n y0 else y0) hx
        simpa [hk] using hmm
      · refine ⟨x, ?_, rfl, rfl, rfl, Or.inl rfl⟩
        have hmm := List.mem_map_of_mem
          (fun y0 => if itemKeyMatches src n.externalId y0 then applyFieldUpdate rules now n y0 else y0) hx
        simpa [hk] using hmm
    · by_cases hk : itemKeyMatches src n.externalId x
      · refine ⟨markSeenSnap now x, ?_, rfl, rfl, rfl, Or.inl rfl⟩
        have hmm := List.mem_map_of_mem
          (fun y0 => if itemKeyMatches src n.externalId y0 then markSeenSnap now y0 else y0) hx
        simpa [hk] using hmm
      · refine ⟨x, ?_, rfl, rfl, rfl, Or.inl rfl⟩
        have hmm := List.mem_map_of_mem
          (fun y0 => if itemKeyMatches src n.externalId y0 then markSeenSnap now y0 else y0) hx
        simpa [hk] using hmm
    · by_cases hk : itemKeyMatches src n.externalId x
      · refine ⟨markSeen now x, ?_, rfl, rfl, rfl, Or.inl rfl⟩
        have hmm := List.mem_map_of_mem
          (fun y0 => if itemKeyMatches src n.externalId y0 then markSeen now y0 else y0) hx
        simpa [hk] using hmm
      · refine ⟨x, ?_, rfl, rfl, rfl, Or.inl rfl⟩
        have hmm := List.mem_map_of_mem
          (fun y0 => if itemKeyMatches src n.externalId y0 then markSeen now y0 else y0) hx
        simpa [hk] using hmm

theorem foldl_upsert_mem_image (rules : RuleSet) (src : String) (now : Int)
    (l : List NormalizedItem) :
    ∀ (st : Store) (c : Counts) (x : StoredItem), x ∈ st.items →
      ∃ y ∈ (l.foldl (upsertItem rules src now) (st, c)).1.items,
        y.sourceId = x.sourceId ∧ y.externalId = x.externalId ∧ y.status = x.status ∧
        (y.endTime = x.endTime ∨ ∃ n ∈ l, n.externalId = x.externalId ∧ y.endTime = n.endTime) := by
  induction l with
  | nil => intro st c x hx; exact ⟨x, hx, rfl, rfl, rfl, Or.inl rfl⟩
  | cons a t ih =>
    intro st c x hx
    rw [List.foldl_cons]
    obtain ⟨y1, hy1, hs1, he1, hst1, hor1⟩ := upsert_mem_image rules src now st c a hx
    obtain ⟨y, hy, hs, he, hst, hor⟩ :=
      ih (upsertItem rules src now (st, c) a).1 (upsertItem rules src now (st, c) a).2 y1 hy1
    refine ⟨y, hy, hs.trans hs1, he.trans he1, hst.trans hst1, ?_⟩
    rcases hor with h2 | ⟨m, hm, hme, hyet⟩
    · rcases hor1 with h3 | ⟨hxe, h3⟩
      · exact Or.inl (h2.trans h3)
      · exact Or.inr ⟨a, List.mem_cons_self a t, hxe.symm, h2.trans h3⟩
    · exact Or.inr ⟨m, List.mem_cons_of_mem a hm, hme.trans he1, hyet⟩

/-- Claim C3: an item present in batch N but absent from batch N+1, with end
time in the future, remains `live` after reconciling the later batch — the
pass leaves its status field unchanged at `live` (no false end-of-life
transition from a partial fetch). -/
theorem absent_future_item_stays_live (rules : RuleSet) (src : String)
    (batch : List NormalizedItem) (now : Int) (st : Store) (it : StoredItem) (t : Int)
    (hmem : it ∈ st.items) (hsrc : it.sourceId = src) (hlive : it.status = Status.live)
    (het : it.endTime = some t) (hfut : now ≤ t)
    (habsent : ∀ b ∈ batch, b.externalId ≠ it.externalId) :
    ∃ it', it' ∈ (reconcile rules src batch now st).1.items ∧
      it'.sourceId = src ∧ it'.externalId = it.externalId ∧ it'.status = Status.live := by
  obtain ⟨y, hy, hs, he, hst, hor⟩ :=
    foldl_upsert_mem_image rules src now (dedupBatch batch) st ⟨batch.length, 0, 0, 0⟩ it hmem
  have hyet : y.endTime = some t := by
    rcases hor with h | ⟨m, hm, hme, _⟩
    · rw [h, het]
    · exact absurd hme (habsent m (mem_of_mem_dedupBatch hm))
  have hnlt : ¬t < now := by omega
  have hnotin : ((dedupBatch batch).map (fun q => q.externalId)).contains y.externalId = false := by
    by_contra hcon
    have h1 : ((dedupBatch batch).map (fun q => q.externalId)).contains y.externalId = true := by
      revert hcon
      cases ((dedupBatch batch).map (fun q => q.externalId)).contains y.externalId <;> simp
    have h2 : y.externalId ∈ (dedupBatch batch).map (fun q => q.externalId) := by
      simpa using h1
    obtain ⟨m, hm, hme⟩ := List.mem_map.mp h2
    exact absurd (hme.trans he) (habsent m (mem_of_mem_dedupBatch hm))
  have hcond : (y.sourceId == src && y.status == Status.live &&
      !((dedupBatch batch).map (fun q => q.externalId)).contains y.externalId) = true := by
    have e1 : y.sourceId = src := hs.trans hsrc
    have e2 : y.status = Status.live := hst.trans hlive
    rw [e1, e2, hnotin]
    simp
  have hstep4 : step4Item src ((dedupBatch batch).map (fun q => q.externalId)) now y =
      { y with needsReverify := true } := by
    unfold step4Item
    rw [if_pos hcond, hyet]
    dsimp only
    rw [if_neg hnlt]
  have hstep5 : step5Item now ({ y with needsReverify := true } : StoredItem) =
      { y with needsReverify := true } := by
    have hs2 : ({ y with needsReverify := true } : StoredItem).status = Status.live :=
      hst.trans hlive
    have he2 : ({ y with needsReverify := true } : StoredItem).endTime = some t := hyet
    have hb : (({ y with needsReverify := true } : StoredItem).status == Status.live) = true := by
      rw [hs2]
      rfl
    unfold step5Item
    rw [if_pos hb, he2]
    dsimp only
    rw [if_neg hnlt]
  refine ⟨{ y with needsReverify := true }, ?_, hs.trans hsrc, he, hst.trans hlive⟩
  rw [reconcile_items_shape]
  have m1 := List.mem_map_of_mem
    (step4Item src ((dedupBatch batch).map (fun q => q.externalId)) now) hy
  have m2 := List.mem_map_of_mem (step5Item now) m1
  rw [hstep4, hstep5] at m2
  exact m2

theorem absent_future_item_stays_live_witness :
    ∃ it', it' ∈ (reconcile sampleRules "goldin" [] 0 ⟨[itemFuture], []⟩).1.items ∧
      it'.sourceId = "goldin" ∧ it'.externalId = itemFuture.externalId ∧
      it'.status = Status.live :=
  absent_future_item_stays_live sampleRules "goldin" [] 0 ⟨[itemFuture], []⟩ itemFuture 100
    (by decide) (by decide) (by decide) (by decide) (by decide) (by simp)

/-- Claim C8: an item with no end time is never auto-ended by time — after a
pass in which every batch record for its key also carries no end time, the
item's status is unchanged: neither the step-5 time sweep nor the step-4
time rule for absent items ever transitions it to `ended`. -/
theorem no_end_time_never_time_ended (rules : RuleSet) (src : String)
    (batch : List NormalizedItem) (now : Int) (st : Store) (it : StoredItem)
    (hmem : it ∈ st.items) (het : it.endTime = none)
    (hbatch : ∀ b ∈ batch, b.externalId = it.externalId → b.endTime = none) :
    ∃ it', it' ∈ (reconcile rules src batch now st).1.items ∧
      it'.sourceId = it.sourceId ∧ it'.externalId = it.externalId ∧
      it'.status = it.status ∧ it'.endTime = none := by
  obtain ⟨y, hy, hs, he, hst, hor⟩ :=
    foldl_upsert_mem_image rules src now (dedupBatch batch) st ⟨batch.length, 0, 0, 0⟩ it hmem
  have hyet : y.endTime = none := by
    rcases hor with h | ⟨m, hm, hme, hyet⟩
    · rw [h, het]
    · rw [hyet]
      exact hbatch m (mem_of_mem_dedupBatch hm) hme
  have h4f := step4Item_fields src ((dedupBatch batch).map (fun q => q.externalId)) now y
  have h4et : (step4Item src ((dedupBatch batch).map (fun q => q.externalId)) now y).endTime = none :=
    h4f.2.2.2.2.trans hyet
  have h4status : (step4Item src ((dedupBatch batch).map (fun q => q.externalId)) now y).status =
      y.status := by
    unfold step4Item
    split
    · simp only [hyet]
    · rfl
  have h5eq : step5Item now (step4Item src ((dedupBatch batch).map (fun q => q.externalId)) now y) =
      step4Item src ((dedupBatch batch).map (fun q => q.externalId)) now y := by
    unfold step5Item
    split
    · simp only [h4et]
    · rfl
  refine ⟨step4Item src ((dedupBatch batch).map (fun q => q.externalId)) now y, ?_,
    h4f.1.trans (hs.trans rfl), h4f.2.1.trans he, h4status.trans hst, h4et⟩
  rw [reconcile_items_shape]
  have m1 := List.mem_map_of_mem
    (step4Item src ((dedupBatch batch).map (fun q => q.externalId)) now) hy
  have m2 := List.mem_map_of_mem (step5Item now) m1
  rw [h5eq] at m2
  exact m2

theorem no_end_time_never_time_ended_witness :
    ∃ it', it' ∈ (reconcile sampleRules "goldin" [] 50 ⟨[baseItem], []⟩).1.items ∧
      it'.sourceId = baseItem.sourceId ∧ it'.externalId = baseItem.externalId ∧
      it'.status = baseItem.status ∧ it'.endTime = none :=
  no_end_time_never_time_ended sampleRules "goldin" [] 50 ⟨[baseItem], []⟩ baseItem
    (by decide) (by decide) (by simp)

end CardWatch

namespace CardWatch

theorem findItem_foldl_of_all_ne (rules : RuleSet) (src : String) (now : Int)
    (l : List NormalizedItem) (eid : String) (hne : ∀ n ∈ l, eid ≠ n.externalId) :
    ∀ st c, findItem src eid (l.foldl (upsertItem rules src now) (st, c)).1.items =
        findItem src eid st.items ∧
      snapsFor src eid (l.foldl (upsertItem rules src now) (st, c)).1 = snapsFor src eid st := by
  induction l with
  | nil => intro st c; exact ⟨rfl, rfl⟩
  | cons a t ih =>
    intro st c
    rw [List.foldl_cons]
    have h1 := findItem_upsert_of_ne rules src now st c a eid (hne a (by simp))
    have h2 := snapsFor_upsert_of_ne rules src now st c a eid (hne a (by simp))
    have h3 := ih (fun n hn => hne n (by simp [hn]))
      (upsertItem rules src now (st, c) a).1 (upsertItem rules src now (st, c) a).2
    exact ⟨h3.1.trans h1, h3.2.trans h2⟩

theorem snapsFor_upsert_changed (rules : RuleSet) (src : String) (now : Int)
    (st : Store) (c : Counts) (n : NormalizedItem) (it : StoredItem)
    (hf : findItem src n.externalId st.items = some it) (hch : fieldsChanged it n = true) :
    snapsFor src n.externalId (upsertItem rules src now (st, c) n).1 =
      snapsFor src n.externalId st + 1 := by
  simp only [upsertItem, hf, hch, if_true]
  unfold snapsFor
  rw [List.filter_append]
  simp [List.filter]

theorem snapsFor_upsert_unchanged_noFloor (rules : RuleSet) (src : String) (now : Int)
    (st : Store) (c : Counts) (n : NormalizedItem) (it : StoredItem)
    (hf : findItem src n.externalId st.items = some it) (hfc : fieldsChanged it n = false)
    (hfl : now - it.lastSnapshotAt < dayMs) :
    snapsFor src n.externalId (upsertItem rules src now (st, c) n).1 =
      snapsFor src n.externalId st := by
  simp only [upsertItem, hf, hfc]
  rw [if_neg (show ¬(false = true) by simp)]
  rw [if_neg (show ¬(dayMs ≤ now - it.lastSnapshotAt) by omega)]
  rfl

/-- Claim C4 (amended): a pass whose (deduplicated) batch record for an item
differs from the stored values in current bid or bid count appends exactly
one new Price Snapshot for that item; a pass in which bid, bid count AND end
time are all unchanged appends none, provided the once-per-day floor is not
due.  (The claim as stated — none appended whenever bid and bid count alone
are unchanged — fails: per spec section 4.3 step 3 a changed end time also
triggers a snapshot; see the counterexample.) -/
theorem snapshot_per_pass (rules : RuleSet) (src : String) (now : Int) (st : Store)
    (batch : List NormalizedItem) (n : NormalizedItem) (it : StoredItem)
    (hn : n ∈ dedupBatch batch)
    (hfind : findItem src n.externalId st.items = some it) :
    (it.currentBid ≠ n.currentBid ∨ it.bidCount ≠ n.bidCount →
      snapsFor src n.externalId (reconcile rules src batch now st).1 =
        snapsFor src n.externalId st + 1) ∧
    (it.currentBid = n.currentBid → it.bidCount = n.bidCount → it.endTime = n.endTime →
      now - it.lastSnapshotAt < dayMs →
      snapsFor src n.externalId (reconcile rules src batch now st).1 =
        snapsFor src n.externalId st) := by
  obtain ⟨l1, l2, heq⟩ := List.append_of_mem hn
  have hpw := dedupBatch_pairwise batch
  rw [heq] at hpw
  obtain ⟨hpw1, hpw2, hcross⟩ := List.pairwise_append.mp hpw
  have hl1 : ∀ m ∈ l1, n.externalId ≠ m.externalId :=
    fun m hm => (hcross m hm n (List.mem_cons_self n l2)).symm
  have hl2 : ∀ m ∈ l2, n.externalId ≠ m.externalId :=
    fun m hm => (List.pairwise_cons.mp hpw2).1 m hm
  have hfold1 := findItem_foldl_of_all_ne rules src now l1 n.externalId hl1 st
    ⟨batch.length, 0, 0, 0⟩
  have hfA : findItem src n.externalId
      (l1.foldl (upsertItem rules src now) (st, ⟨batch.length, 0, 0, 0⟩)).1.items = some it :=
    hfold1.1.trans hfind
  have hshape : snapsFor src n.externalId (reconcile rules src batch now st).1 =
      snapsFor src n.externalId
        ((dedupBatch batch).foldl (upsertItem rules src now) (st, ⟨batch.length, 0, 0, 0⟩)).1 := by
    unfold snapsFor
    rw [reconcile_snaps_shape]
  have hfoldall : (dedupBatch batch).foldl (upsertItem rules src now)
      (st, (⟨batch.length, 0, 0, 0⟩ : Counts)) =
      l2.foldl (upsertItem rules src now)
        (upsertItem rules src now
          (l1.foldl (upsertItem rules src now) (st, ⟨batch.length, 0, 0, 0⟩)) n) := by
    rw [heq, List.foldl_append, List.foldl_cons]
  constructor
  · intro hbc
    have hch : fieldsChanged it n = true := by
      unfold fieldsChanged
      rcases hbc with h | h
      · simp [bne_iff_ne, h]
      · simp [bne_iff_ne, h]
    have h2 := snapsFor_upsert_changed rules src now
      (l1.foldl (upsertItem rules src now) (st, ⟨batch.length, 0, 0, 0⟩)).1
      (l1.foldl (upsertItem rules src now) (st, ⟨batch.length, 0, 0, 0⟩)).2 n it hfA hch
    have h3 := (findItem_foldl_of_all_ne rules src now l2 n.externalId hl2
      (upsertItem rules src now
        (l1.foldl (upsertItem rules src now) (st, ⟨batch.length, 0, 0, 0⟩)) n).1
      (upsertItem rules src now
        (l1.foldl (upsertItem rules src now) (st, ⟨batch.length, 0, 0, 0⟩)) n).2).2
    rw [hshape, hfoldall]
    calc snapsFor src n.externalId
          (l2.foldl (upsertItem rules src now)
            (upsertItem rules src now
              (l1.foldl (upsertItem rules src now) (st, ⟨batch.length, 0, 0, 0⟩)) n)).1
        = snapsFor src n.externalId
            (upsertItem rules src now
              (l1.foldl (upsertItem rules src now) (st, ⟨batch.length, 0, 0, 0⟩)) n).1 := h3
      _ = snapsFor src n.externalId
            (l1.foldl (upsertItem rules src now) (st, ⟨batch.length, 0, 0, 0⟩)).1 + 1 := h2
      _ = snapsFor src n.externalId st + 1 := by rw [hfold1.2]
  · intro hb hbc het hfl
    have hfc : fieldsChanged it n = false := by
      unfold fieldsChanged
      simp [bne_iff_ne, hb, hbc, het]
    have h2 := snapsFor_upsert_unchanged_noFloor rules src now
      (l1.foldl (upsertItem rules src now) (st, ⟨batch.length, 0, 0, 0⟩)).1
      (l1.foldl (upsertItem rules src now) (st, ⟨batch.length, 0, 0, 0⟩)).2 n it hfA hfc hfl
    have h3 := (findItem_foldl_of_all_ne rules src now l2 n.externalId hl2
      (upsertItem rules src now
        (l1.foldl (upsertItem rules src now) (st, ⟨batch.length, 0, 0, 0⟩)) n).1
      (upsertItem rules src now
        (l1.foldl (upsertItem rules src now) (st, ⟨batch.length, 0, 0, 0⟩)) n).2).2
    rw [hshape, hfoldall]
    calc snapsFor src n.externalId
          (l2.foldl (upsertItem rules src now)
            (upsertItem rules src now
              (l1.foldl (upsertItem rules src now) (st, ⟨batch.length, 0, 0, 0⟩)) n)).1
        = snapsFor src n.externalId
            (upsertItem rules src now
              (l1.foldl (upsertItem rules src now) (st, ⟨batch.length, 0, 0, 0⟩)) n).1 := h3
      _ = snapsFor src n.externalId
            (l1.foldl (upsertItem rules src now) (st, ⟨batch.length, 0, 0, 0⟩)).1 := h2
      _ = snapsFor src n.externalId st := hfold1.2

theorem snapshot_per_pass_witness :
    snapsFor "goldin" "lot1" (reconcile sampleRules "goldin" [recNewBid] 0 storeWithEnd).1 =
      snapsFor "goldin" "lot1" storeWithEnd + 1 :=
  (snapshot_per_pass sampleRules "goldin" 0 storeWithEnd [recNewBid] recNewBid
    { baseItem with endTime := some 100 } (by decide) (by decide)).1 (Or.inl (by decide))

/-- Counterexample to claim C4 as stated: `baseItem` is stored with bid 10,
bid count 2 and end time 100; the batch record carries the same bid and bid
count but end time 200, and the daily snapshot floor is not due — yet the
pass appends one Price Snapshot (spec section 4.3 step 3 snapshots on an
end-time change too), where the claim says none would be appended. -/
theorem snapshot_claim_counterexample :
    ({ baseItem with endTime := some 100 } : StoredItem).currentBid = recNewEndTime.currentBid ∧
    ({ baseItem with endTime := some 100 } : StoredItem).bidCount = recNewEndTime.bidCount ∧
    (0 : Int) - ({ baseItem with endTime := some 100 } : StoredItem).lastSnapshotAt < dayMs ∧
    snapsFor "goldin" "lot1" storeWithEnd = 0 ∧
    snapsFor "goldin" "lot1" (reconcile sampleRules "goldin" [recNewEndTime] 0 storeWithEnd).1 = 1 := by
  refine ⟨rfl, rfl, by decide, rfl, by decide⟩

end CardWatch

namespace CardWatch

theorem sched_uniq_map {jobs : List Job} (f : Job → Job) (hid : ∀ x, (f x).id = x.id)
    (h : jobs.Pairwise (fun a b => a.id ≠ b.id)) :
    (jobs.map f).Pairwise (fun a b => a.id ≠ b.id) := by
  refine List.Pairwise.map f ?_ h
  intro a b hab hc
  rw [hid a, hid b] at hc
  exact hab hc

theorem pairwise_id_unique {l : List Job} (h : l.Pairwise (fun a b => a.id ≠ b.id))
    {x y : Job} (hx : x ∈ l) (hy : y ∈ l) (he : x.id = y.id) : x = y := by
  induction l with
  | nil => cases hx
  | cons a t ih =>
    obtain ⟨ha, ht⟩ := List.pairwise_cons.mp h
    rcases List.mem_cons.mp hx with rfl | hx'
    · rcases List.mem_cons.mp hy with rfl | hy'
      · rfl
      · exact absurd he (ha y hy')
    · rcases List.mem_cons.mp hy with rfl | hy'
      · exact absurd he.symm (ha x hx')
      · exact ih ht hx' hy'

theorem applyOp_preserves_inv (s : Scheduler) (op : SchedOp)
    (hinv : ∀ j ∈ s.jobs, j.activeRuns = (if j.running then 1 else 0))
    (huniq : s.jobs.Pairwise (fun a b => a.id ≠ b.id)) :
    (∀ j ∈ (applyOp s op).jobs, j.activeRuns = (if j.running then 1 else 0)) ∧
      (applyOp s op).jobs.Pairwise (fun a b => a.id ≠ b.id) := by
  cases op with
  | enable jid interval =>
    unfold applyOp
    cases hf : findJob jid s with
    | some j =>
      simp only [enableJob, hf]
      constructor
      · intro j' hj'
        obtain ⟨x, hx, hxe⟩ := List.mem_map.mp hj'
        subst hxe
        by_cases hk : (x.id == jid) = true
        · simp only [hk, if_true]
          exact hinv x hx
        · rw [if_neg hk]
          exact hinv x hx
      · refine sched_uniq_map _ ?_ huniq
        intro x
        by_cases hk : (x.id == jid) = true
        · simp [hk]
        · rw [if_neg hk]
    | none =>
      simp only [enableJob, hf]
      constructor
      · intro j' hj'
        rcases List.mem_append.mp hj' with h | h
        · exact hinv j' h
        · simp only [List.mem_singleton] at h
          subst h
          rfl
      · rw [List.pairwise_append]
        refine ⟨huniq, by simp, ?_⟩
        intro a ha b hb
        simp only [List.mem_singleton] at hb
        subst hb
        have h1 := List.find?_eq_none.mp hf a ha
        intro hc
        exact h1 (by rw [hc]; simp)
  | disable jid =>
    unfold applyOp
    simp only [disableJob]
    constructor
    · intro j' hj'
      obtain ⟨x, hx, hxe⟩ := List.mem_map.mp hj'
      subst hxe
      by_cases hk : (x.id == jid) = true
      · simp only [hk, if_true]
        exact hinv x hx
      · rw [if_neg hk]
        exact hinv x hx
    · refine sched_uniq_map _ ?_ huniq
      intro x
      by_cases hk : (x.id == jid) = true
      · simp [hk]
      · rw [if_neg hk]
  | pause jid =>
    unfold applyOp
    simp only [pauseJob]
    constructor
    · intro j' hj'
      obtain ⟨x, hx, hxe⟩ := List.mem_map.mp hj'
      subst hxe
      by_cases hk : (x.id == jid) = true
      · simp only [hk, if_true]
        exact hinv x hx
      · rw [if_neg hk]
        exact hinv x hx
    · refine sched_uniq_map _ ?_ huniq
      intro x
      by_cases hk : (x.id == jid) = true
      · simp [hk]
      · rw [if_neg hk]
  | resume jid =>
    unfold applyOp
    simp only [resumeJob]
    constructor
    · intro j' hj'
      obtain ⟨x, hx, hxe⟩ := List.mem_map.mp hj'
      subst hxe
      by_cases hk : (x.id == jid) = true
      · simp only [hk, if_true]
        exact hinv x hx
      · rw [if_neg hk]
        exact hinv x hx
    · refine sched_uniq_map _ ?_ huniq
      intro x
      by_cases hk : (x.id == jid) = true
      · simp [hk]
      · rw [if_neg hk]
  | manualRun jid =>
    unfold applyOp
    cases hf : findJob jid s with
    | none =>
      simp only [runNow, hf]
      exact ⟨hinv, huniq⟩
    | some j =>
      by_cases hr : j.running = true
      · simp only [runNow, hf, hr, if_true]
        exact ⟨hinv, huniq⟩
      · simp only [runNow, hf]
        rw [if_neg hr]
        constructor
        · intro j' hj'
          obtain ⟨x, hx, hxe⟩ := List.mem_map.mp hj'
          subst hxe
          by_cases hk : (x.id == jid) = true
          · have hxj : x = j := by
              refine pairwise_id_unique huniq hx (List.mem_of_find?_eq_some hf) ?_
              have hf2 : s.jobs.find? (fun x => x.id == jid) = some j := hf
              have h1 : x.id = jid := beq_iff_eq.mp hk
              have h2 := List.find?_some hf2
              rw [h1, beq_iff_eq.mp h2]
            have hrf : x.running = false := by
              rw [hxj]
              revert hr
              cases j.running <;> simp
            have h0 := hinv x hx
            rw [hrf] at h0
            simp only [hk, if_true]
            unfold startJob
            simp [h0]
          · rw [if_neg hk]
            exact hinv x hx
        · refine sched_uniq_map _ ?_ huniq
          intro x
          by_cases hk : (x.id == jid) = true
          · simp [hk, startJob]
          · rw [if_neg hk]
  | tick jid =>
    unfold applyOp
    simp only [tickTrigger]
    constructor
    · intro j' hj'
      obtain ⟨x, hx, hxe⟩ := List.mem_map.mp hj'
      subst hxe
      by_cases hk : (x.id == jid && x.enabled && !x.paused && !x.running) = true
      · have hrf : x.running = false := by
          simp only [Bool.and_eq_true, Bool.not_eq_true'] at hk
          exact hk.2
        have h0 := hinv x hx
        rw [hrf] at h0
        simp only [hk, if_true]
        unfold startJob
        simp [h0]
      · rw [if_neg hk]
        exact hinv x hx
    · refine sched_uniq_map _ ?_ huniq
      intro x
      by_cases hk : (x.id == jid && x.enabled && !x.paused && !x.running) = true
      · simp [hk, startJob]
      · rw [if_neg hk]
  | complete jid rec =>
    unfold applyOp
    simp only [completeJob]
    constructor
    · intro j' hj'
      obtain ⟨x, hx, hxe⟩ := List.mem_map.mp hj'
      subst hxe
      by_cases hk : (x.id == jid && x.running) = true
      · have hrt : x.running = true := by
          simp only [Bool.and_eq_true] at hk
          exact hk.2
        have h0 := hinv x hx
        rw [hrt] at h0
        simp only [hk, if_true]
        simp [h0]
      · rw [if_neg hk]
        exact hinv x hx
    · refine sched_uniq_map _ ?_ huniq
      intro x
      by_cases hk : (x.id == jid && x.running) = true
      · simp [hk]
      · rw [if_neg hk]

theorem foldl_applyOp_inv (ops : List SchedOp) :
    ∀ s : Scheduler, (∀ j ∈ s.jobs, j.activeRuns = (if j.running then 1 else 0)) →
      s.jobs.Pairwise (fun a b => a.id ≠ b.id) →
      (∀ j ∈ (ops.foldl applyOp s).jobs, j.activeRuns = (if j.running then 1 else 0)) ∧
        (ops.foldl applyOp s).jobs.Pairwise (fun a b => a.id ≠ b.id) := by
  induction ops with
  | nil => intro s h1 h2; exact ⟨h1, h2⟩
  | cons op rest ih =>
    intro s h1 h2
    rw [List.foldl_cons]
    have h3 := applyOp_preserves_inv s op h1 h2
    exact ih (applyOp s op) h3.1 h3.2

/-- Claim C5: invoking `runNow` on a job whose running flag is set returns a
"skipped — already running" outcome and leaves the scheduler state untouched
(no second execution starts, no run record is appended); moreover, from the
initial scheduler state, no sequence of control and lifecycle events ever
produces a job with more than one execution in progress. -/
theorem runNow_single_flight :
    (∀ (s : Scheduler) (jid : String) (j : Job), findJob jid s = some j → j.running = true →
      runNow jid s = (RunNowResult.skippedAlreadyRunning, s)) ∧
    (∀ (ops : List SchedOp) (j : Job), j ∈ (runOps initScheduler ops).jobs → j.activeRuns ≤ 1) := by
  constructor
  · intro s jid j hf hr
    simp only [runNow, hf, hr, if_true]
  · intro ops j hj
    have h := (foldl_applyOp_inv ops initScheduler (by intro j hj; cases hj)
      List.Pairwise.nil).1 j hj
    rw [h]
    split <;> simp

theorem runNow_single_flight_witness :
    runNow "cardhobby" schedRunning = (RunNowResult.skippedAlreadyRunning, schedRunning) ∧
    ∀ j ∈ (runOps initScheduler [SchedOp.enable "goldin" 30, SchedOp.manualRun "goldin"]).jobs,
      j.activeRuns ≤ 1 :=
  ⟨runNow_single_flight.1 schedRunning "cardhobby" jobRunning (by decide) (by decide),
   fun j hj =>
     runNow_single_flight.2 [SchedOp.enable "goldin" 30, SchedOp.manualRun "goldin"] j hj⟩

/-- Claim C6: `getEstimate` is a read-through cache — when the item's cached
estimate fields are present it returns them with zero external calls and an
unchanged store; only when they are absent does it invoke the external
capability (exactly once), persist the result onto the item, and return
it. -/
theorem getEstimate_read_through (external : StoredItem → Option Estimate)
    (src eid : String) (st : Store) (it : StoredItem)
    (hfind : findItem src eid st.items = some it) :
    (∀ e, it.marketValue = some e →
      getEstimate external src eid st = (EstimateResult.fromCache e, st, 0)) ∧
    (it.marketValue = none → ∀ e, external it = some e →
      (getEstimate external src eid st).1 = EstimateResult.fresh e ∧
      (getEstimate external src eid st).2.2 = 1 ∧
      ∃ it', findItem src eid (getEstimate external src eid st).2.1.items = some it' ∧
        it'.marketValue = some e) := by
  constructor
  · intro e he
    simp only [getEstimate, hfind, he]
  · intro hnone e hext
    have h1 : getEstimate external src eid st =
        (EstimateResult.fresh e,
         ⟨st.items.map (fun x => if itemKeyMatches src eid x then { x with marketValue := some e } else x),
          st.snapshots⟩, 1) := by
      simp only [getEstimate, hfind, hnone, hext]
    rw [h1]
    refine ⟨rfl, rfl, ?_⟩
    refine ⟨(fun x => if itemKeyMatches src eid x then { x with marketValue := some e } else x) it,
      ?_, ?_⟩
    · show findItem src eid (st.items.map
        (fun x => if itemKeyMatches src eid x then { x with marketValue := some e } else x)) = _
      rw [findItem_map_keyPreserving (condUpdate_keys (itemKeyMatches src eid)
        (fun x => { x with marketValue := some e }) (fun _ => ⟨rfl, rfl⟩))]
      rw [hfind]
      rfl
    · have hk : itemKeyMatches src eid it = true := List.find?_some hfind
      simp [hk]

theorem getEstimate_read_through_witness :
    getEstimate extAlways "goldin" "lot1"
      ⟨[{ baseItem with marketValue := some estSample }], []⟩ =
      (EstimateResult.fromCache estSample,
       ⟨[{ baseItem with marketValue := some estSample }], []⟩, 0) :=
  (getEstimate_read_through extAlways "goldin" "lot1"
    ⟨[{ baseItem with marketValue := some estSample }], []⟩
    { baseItem with marketValue := some estSample } (by decide)).1 estSample (by decide)

end CardWatch
